import Mathlib

/-!
Verification of the chat-server core of `server.py`.

The server keeps a list `chat_members` of `Member` records (display name,
sender port, pending-message mailbox).  Each inbound datagram is a raw
text line; `handle_message` splits it on single spaces, dispatches on the
first token (1=Join, 2=Send, 3=Rename, 4=Leave, 5=Poll) and sends exactly
one response datagram back to the sender.  We embed the state-mutating
Python functions as pure Lean functions from the old member list to the
new member list together with the response text.  Python operations that
raise (indexing an empty list, attribute access on `None`) are modelled
with `Option`: `none` is an unhandled fatal condition.

Python compares `Member` objects by object identity (the class defines no
`__eq__`).  Since a Python list holds distinct objects, object identity of
a member found by a linear scan coincides with its position in the list,
so identity-sensitive spots (`m != member`, `list.remove`, in-place
mutation of the found member) are embedded positionally via `findIdx?`,
`eraseIdx` and `set`.
-/

structure Member where
  name : String
  port : Nat
  pending_messages : List String
deriving DecidableEq, Repr

/-- `Member.add_message`: append one message to the member's mailbox. -/
def Member.add_message (m : Member) (message : String) : Member :=
  { m with pending_messages := m.pending_messages ++ [message] }

/-- `Member.clear_message_board`: empty the member's mailbox. -/
def Member.clear_message_board (m : Member) : Member :=
  { m with pending_messages := [] }

/-- `find_member_by_info`: first member whose port equals the sender's port
(`sender_info[1]`); `None` when there is none. -/
def find_member_by_info (chat_members : List Member) (sender_info : String × Nat) :
    Option Member :=
  chat_members.find? (fun m => sender_info.2 == m.port)

/-- Position of the member object returned by `find_member_by_info`
(Python object identity, modelled positionally). -/
def find_index_by_info (chat_members : List Member) (sender_info : String × Nat) :
    Option Nat :=
  chat_members.findIdx? (fun m => sender_info.2 == m.port)

/-- `is_port_available`: true iff no current member owns the sender's port. -/
def is_port_available (chat_members : List Member) (sender_info : String × Nat) : Bool :=
  !(chat_members.any (fun m => m.port == sender_info.2))

/-- Body of `merge_str` after the `pop(0)`: concatenate every remaining token
followed by a space, then drop the final character (`new_str[:-1]`;
on the empty string this is again the empty string). -/
def mergeRest (rest : List String) : String :=
  let new_str := rest.foldl (fun acc sub => acc ++ sub ++ " ") ""
  String.mk new_str.data.dropLast

/-- `merge_str`: `substr.pop(0)` raises on an empty list (`none`); otherwise
drop the first token and merge the rest. -/
def merge_str (substr : List String) : Option String :=
  match substr with
  | [] => none
  | _ :: rest => some (mergeRest rest)

/-- Python `message.split(' ')` on the character list: split at every single
space, keeping empty fragments; the result is never the empty list. -/
def splitCharsOnSpace : List Char → List (List Char)
  | [] => [[]]
  | c :: rest =>
    if c = ' ' then [] :: splitCharsOnSpace rest
    else
      match splitCharsOnSpace rest with
      | [] => [[c]]
      | t :: ts => (c :: t) :: ts

/-- Python `message.split(' ')`. -/
def splitOnSpace (s : String) : List String :=
  (splitCharsOnSpace s.data).map String.mk

/-- `display_other_members`: the names of all members other than the object
found for the sender (none removed when the sender is not registered),
joined by `", "`; the empty string when exactly one member exists. -/
def display_other_members (sender_info : String × Nat) (chat_members : List Member) :
    String :=
  let name_list :=
    match find_index_by_info chat_members sender_info with
    | some i => (chat_members.eraseIdx i).map Member.name
    | none => chat_members.map Member.name
  if chat_members.length == 1 then ""
  else String.intercalate ", " name_list

/-- `join_group`: notify every existing member that `<name>` has joined,
append the new member, and answer with the other members' names. -/
def join_group (substr : List String) (sender_info : String × Nat)
    (chat_members : List Member) : Option (List Member × String) := do
  let name ← merge_str substr
  let notified := chat_members.map (fun m => m.add_message (name ++ " has joined"))
  let member : Member := ⟨name, sender_info.2, []⟩
  let chat_members2 := notified ++ [member]
  pure (chat_members2, display_other_members sender_info chat_members2)

/-- `refresh_messages`: drain the sender's mailbox.  Empty mailbox answers
with the empty string and changes nothing; otherwise the response is every
pending message followed by a newline, and the mailbox is cleared. -/
def refresh_messages (sender_info : String × Nat) (chat_members : List Member) :
    Option (List Member × String) := do
  let i ← find_index_by_info chat_members sender_info
  let member ← chat_members.get? i
  if member.pending_messages.length == 0 then
    pure (chat_members, "")
  else
    let final_msg := member.pending_messages.foldl (fun acc msg => acc ++ msg ++ "\n") ""
    pure (chat_members.set i member.clear_message_board, final_msg)

/-- `send_message`: append `"<name>: <message>"` to the mailbox of every
member whose name differs from the sender's, then drain the sender. -/
def send_message (substr : List String) (sender_info : String × Nat)
    (chat_members : List Member) : Option (List Member × String) := do
  let member ← find_member_by_info chat_members sender_info
  let name := member.name
  let message ← merge_str substr
  let full_message := name ++ ": " ++ message
  let chat_members2 := chat_members.map (fun m =>
    if m.name ≠ name then m.add_message full_message else m)
  refresh_messages sender_info chat_members2

/-- `change_name`: append `"<old> changed his name to <new>"` to every member
on a different port, rename every member on the sender's port, then drain
the sender. -/
def change_name (substr : List String) (sender_info : String × Nat)
    (chat_members : List Member) : Option (List Member × String) := do
  let member ← find_member_by_info chat_members sender_info
  let old_name := member.name
  let new_name ← merge_str substr
  let message := old_name ++ " changed his name to " ++ new_name
  let chat_members2 := chat_members.map (fun m =>
    if sender_info.2 ≠ m.port then m.add_message message
    else { m with name := new_name })
  refresh_messages sender_info chat_members2

/-- `leave_group`: remove the sender's member object, notify every remaining
member, and answer with the empty string. -/
def leave_group (sender_info : String × Nat) (chat_members : List Member) :
    Option (List Member × String) := do
  let i ← find_index_by_info chat_members sender_info
  let member ← chat_members.get? i
  let name := member.name
  let chat_members2 := chat_members.eraseIdx i
  let chat_members3 := chat_members2.map (fun m =>
    m.add_message (name ++ " has left the group"))
  pure (chat_members3, "")

/-- `handle_message`: split the raw line on spaces and dispatch on the first
token.  Indexing `substr[0]` on an empty token list would raise (`none`);
Join is guarded by port availability, every other command requires a
registered sender, and anything else answers `"Illegal request"`. -/
def handle_message (message : String) (sender_info : String × Nat)
    (chat_members : List Member) : Option (List Member × String) :=
  let substr := splitOnSpace message
  match substr with
  | [] => none
  | s0 :: _ =>
    if s0 = "1" then
      if !(is_port_available chat_members sender_info) then
        some (chat_members, "Illegal request")
      else
        join_group substr sender_info chat_members
    else if is_port_available chat_members sender_info then
      some (chat_members, "Illegal request")
    else if s0 = "2" then send_message substr sender_info chat_members
    else if s0 = "3" then change_name substr sender_info chat_members
    else if s0 = "4" then leave_group sender_info chat_members
    else if s0 = "5" then refresh_messages sender_info chat_members
    else some (chat_members, "Illegal request")

/-- The server loop on a finite command trace: thread the member list through
`handle_message`, collecting every response; `none` if any step is fatal. -/
def runAll : List (String × String × Nat) → List Member →
    Option (List Member × List String)
  | [], st => some (st, [])
  | (msg, ip, p) :: rest, st =>
    match handle_message msg (ip, p) st with
    | none => none
    | some (st2, resp) =>
      match runAll rest st2 with
      | none => none
      | some (stF, resps) => some (stF, resp :: resps)

/-- The ports currently registered, in insertion order. -/
def ports (st : List Member) : List Nat :=
  st.map Member.port

/-- Join a list of strings with a separator between consecutive entries. -/
def joinSep (sep : String) : List String → String
  | [] => ""
  | [t] => t
  | t :: u :: ts => t ++ sep ++ joinSep sep (u :: ts)

/-- `charJoin`: join character-list fragments with a single space. -/
def charJoin : List (List Char) → List Char
  | [] => []
  | [t] => t
  | t :: u :: ts => t ++ ' ' :: charJoin (u :: ts)

/-! ## String and codec helper lemmas -/

theorem string_mk_data (s : String) : String.mk s.data = s := rfl

theorem string_empty_append (s : String) : "" ++ s = s :=
  String.ext rfl

theorem foldl_append_sep (sep : String) :
    ∀ (ts : List String) (t acc : String),
      (t :: ts).foldl (fun a s => a ++ s ++ sep) acc = acc ++ (joinSep sep (t :: ts) ++ sep)
  | [], t, acc => by simp [joinSep, String.append_assoc]
  | u :: ts, t, acc => by
    have ih := foldl_append_sep sep ts u (acc ++ t ++ sep)
    simp only [List.foldl_cons] at ih ⊢
    rw [ih]
    simp [joinSep, String.append_assoc]

theorem mergeRest_eq_joinSep : ∀ ts, mergeRest ts = joinSep " " ts
  | [] => rfl
  | t :: ts => by
    unfold mergeRest
    rw [foldl_append_sep " " ts t "", string_empty_append]
    apply String.ext
    show ((joinSep " " (t :: ts) ++ " ").data).dropLast = _
    rw [String.data_append]
    show ((joinSep " " (t :: ts)).data ++ [' ']).dropLast = _
    rw [List.dropLast_concat]

theorem splitCharsOnSpace_ne_nil : ∀ l, splitCharsOnSpace l ≠ []
  | [] => by simp [splitCharsOnSpace]
  | c :: rest => by
    unfold splitCharsOnSpace
    split
    · simp
    · split <;> simp

theorem splitOnSpace_ne_nil (s : String) : splitOnSpace s ≠ [] := by
  unfold splitOnSpace
  intro h
  exact splitCharsOnSpace_ne_nil s.data (List.map_eq_nil_iff.mp h)

theorem charJoin_split : ∀ l, charJoin (splitCharsOnSpace l) = l
  | [] => rfl
  | c :: rest => by
    have ih := charJoin_split rest
    unfold splitCharsOnSpace
    by_cases hc : c = ' '
    · rw [if_pos hc]
      obtain ⟨t, ts, h⟩ := List.exists_cons_of_ne_nil (splitCharsOnSpace_ne_nil rest)
      rw [h] at ih ⊢
      show [] ++ ' ' :: charJoin (t :: ts) = c :: rest
      rw [List.nil_append, ih, hc]
    · rw [if_neg hc]
      cases h : splitCharsOnSpace rest with
      | nil => exact absurd h (splitCharsOnSpace_ne_nil rest)
      | cons t ts =>
        rw [h] at ih
        cases ts with
        | nil =>
          show charJoin [c :: t] = c :: rest
          show c :: t = c :: rest
          have : t = rest := ih
          rw [this]
        | cons u ts2 =>
          show charJoin ((c :: t) :: u :: ts2) = c :: rest
          show (c :: t) ++ ' ' :: charJoin (u :: ts2) = c :: rest
          rw [List.cons_append, ← ih]
          rfl

theorem joinSep_space_map_mk : ∀ ls : List (List Char),
    joinSep " " (ls.map String.mk) = String.mk (charJoin ls)
  | [] => rfl
  | [t] => rfl
  | t :: u :: ts => by
    show String.mk t ++ " " ++ joinSep " " ((u :: ts).map String.mk) = _
    rw [joinSep_space_map_mk (u :: ts)]
    apply String.ext
    show (String.mk t ++ " " ++ String.mk (charJoin (u :: ts))).data
      = charJoin (t :: u :: ts)
    rw [String.data_append, String.data_append]
    show t ++ [' '] ++ charJoin (u :: ts) = t ++ ' ' :: charJoin (u :: ts)
    rw [List.append_assoc]
    rfl

theorem joinSep_splitOnSpace (p : String) : joinSep " " (splitOnSpace p) = p := by
  unfold splitOnSpace
  rw [joinSep_space_map_mk, charJoin_split, string_mk_data]

theorem splitChars_append_space : ∀ (cs p : List Char), (∀ c ∈ cs, c ≠ ' ') →
    splitCharsOnSpace (cs ++ ' ' :: p) = cs :: splitCharsOnSpace p
  | [], p, _ => by
    show splitCharsOnSpace (' ' :: p) = [] :: splitCharsOnSpace p
    rw [splitCharsOnSpace]
    rw [if_pos rfl]
  | c :: cs, p, h => by
    have hc : c ≠ ' ' := h c (List.mem_cons_self c cs)
    have ih := splitChars_append_space cs p (fun x hx => h x (List.mem_cons_of_mem c hx))
    show splitCharsOnSpace (c :: (cs ++ ' ' :: p)) = (c :: cs) :: splitCharsOnSpace p
    rw [splitCharsOnSpace]
    rw [if_neg hc, ih]

theorem splitOnSpace_sep (c p : String) (h : ∀ ch ∈ c.data, ch ≠ ' ') :
    splitOnSpace (c ++ " " ++ p) = c :: splitOnSpace p := by
  unfold splitOnSpace
  have hd : (c ++ " " ++ p).data = c.data ++ ' ' :: p.data := by
    rw [String.data_append, String.data_append, List.append_assoc]
    rfl
  rw [hd, splitChars_append_space c.data p.data h, List.map_cons, string_mk_data]

/-! ## Registry helper lemmas -/

theorem add_message_port (m : Member) (x : String) : (m.add_message x).port = m.port := rfl

theorem add_message_name (m : Member) (x : String) : (m.add_message x).name = m.name := rfl

theorem clear_message_board_port (m : Member) : m.clear_message_board.port = m.port := rfl

theorem ports_append (a b : List Member) : ports (a ++ b) = ports a ++ ports b := by
  simp [ports]

theorem ports_map_of_port_eq (f : Member → Member) (h : ∀ m, (f m).port = m.port)
    (st : List Member) : ports (st.map f) = ports st := by
  simp only [ports, List.map_map]
  exact List.map_congr_left (fun m _ => h m)

theorem is_port_available_iff (st : List Member) (s : String × Nat) :
    is_port_available st s = true ↔ s.2 ∉ ports st := by
  simp only [is_port_available, Bool.not_eq_true', List.any_eq_false, ports, List.mem_map,
    beq_iff_eq]
  constructor
  · rintro h ⟨m, hm, hp⟩
    exact h m hm hp
  · intro h m hm hp
    exact h ⟨m, hm, hp⟩

theorem is_port_available_false_iff (st : List Member) (s : String × Nat) :
    is_port_available st s = false ↔ s.2 ∈ ports st := by
  constructor
  · intro hf
    by_contra hn
    have := (is_port_available_iff st s).mpr hn
    rw [hf] at this
    exact Bool.false_ne_true this
  · intro hm
    cases hav : is_port_available st s with
    | false => rfl
    | true => exact absurd hm ((is_port_available_iff st s).mp hav)

theorem find_index_lt_length (st : List Member) (s : String × Nat) (i : Nat)
    (h : find_index_by_info st s = some i) : i < st.length := by
  unfold find_index_by_info at h
  rw [List.findIdx?_eq_some_iff_getElem] at h
  exact h.1

theorem find_index_port (st : List Member) (s : String × Nat) (i : Nat)
    (h : find_index_by_info st s = some i) (hi : i < st.length) : st[i].port = s.2 := by
  unfold find_index_by_info at h
  rw [List.findIdx?_eq_some_iff_getElem] at h
  obtain ⟨_, hp, _⟩ := h
  exact (beq_iff_eq.mp hp).symm

theorem find_index_of_unavailable (st : List Member) (s : String × Nat)
    (h : is_port_available st s = false) : ∃ i, find_index_by_info st s = some i := by
  unfold find_index_by_info
  cases hfi : st.findIdx? (fun m => s.2 == m.port) with
  | some i => exact ⟨i, rfl⟩
  | none =>
    exfalso
    rw [List.findIdx?_eq_none_iff] at hfi
    rw [is_port_available_false_iff] at h
    obtain ⟨m, hm, hp⟩ := List.mem_map.mp h
    have := hfi m hm
    rw [hp] at this
    simp at this

theorem find?_of_findIdx? {α : Type} (p : α → Bool) :
    ∀ (l : List α) (i : Nat), l.findIdx? p = some i →
      ∃ hi : i < l.length, l.find? p = some l[i]
  | [], i, h => by simp at h
  | x :: xs, i, h => by
    rw [List.findIdx?_cons] at h
    by_cases hp : p x
    · rw [if_pos hp] at h
      injection h with h
      subst h
      exact ⟨Nat.succ_pos _, by simp [List.find?_cons, hp]⟩
    · rw [if_neg hp] at h
      rw [List.findIdx?_succ] at h
      cases hidx : xs.findIdx? p with
      | none => rw [hidx] at h; simp at h
      | some j =>
        rw [hidx] at h
        simp only [Option.map_some', Option.some.injEq] at h
        subst h
        obtain ⟨hj, hfind⟩ := find?_of_findIdx? p xs j hidx
        refine ⟨Nat.succ_lt_succ hj, ?_⟩
        simp [List.find?_cons, hp, hfind]

theorem find_member_eq_get (st : List Member) (s : String × Nat) (i : Nat)
    (h : find_index_by_info st s = some i) :
    ∃ hi : i < st.length, find_member_by_info st s = some st[i] :=
  find?_of_findIdx? _ st i h

/-! ## Dispatcher branch lemmas -/

theorem handle_join_unavail {msg : String} {s : String × Nat} {st : List Member}
    {rest : List String} (hsplit : splitOnSpace msg = "1" :: rest)
    (h : is_port_available st s = false) :
    handle_message msg s st = some (st, "Illegal request") := by
  unfold handle_message
  rw [hsplit]
  simp [h]

theorem handle_join_avail {msg : String} {s : String × Nat} {st : List Member}
    {rest : List String} (hsplit : splitOnSpace msg = "1" :: rest)
    (h : is_port_available st s = true) :
    handle_message msg s st = join_group ("1" :: rest) s st := by
  unfold handle_message
  rw [hsplit]
  simp [h]

theorem handle_unregistered {msg : String} {s : String × Nat} {st : List Member}
    {s0 : String} {rest : List String} (hsplit : splitOnSpace msg = s0 :: rest)
    (h0 : s0 ≠ "1") (h : is_port_available st s = true) :
    handle_message msg s st = some (st, "Illegal request") := by
  unfold handle_message
  rw [hsplit]
  simp [h0, h]

theorem handle_send {msg : String} {s : String × Nat} {st : List Member}
    {rest : List String} (hsplit : splitOnSpace msg = "2" :: rest)
    (h : is_port_available st s = false) :
    handle_message msg s st = send_message ("2" :: rest) s st := by
  unfold handle_message
  rw [hsplit]
  simp [h]

theorem handle_rename {msg : String} {s : String × Nat} {st : List Member}
    {rest : List String} (hsplit : splitOnSpace msg = "3" :: rest)
    (h : is_port_available st s = false) :
    handle_message msg s st = change_name ("3" :: rest) s st := by
  unfold handle_message
  rw [hsplit]
  simp [h]

theorem handle_leave {msg : String} {s : String × Nat} {st : List Member}
    {rest : List String} (hsplit : splitOnSpace msg = "4" :: rest)
    (h : is_port_available st s = false) :
    handle_message msg s st = leave_group s st := by
  unfold handle_message
  rw [hsplit]
  simp [h]

theorem handle_poll {msg : String} {s : String × Nat} {st : List Member}
    {rest : List String} (hsplit : splitOnSpace msg = "5" :: rest)
    (h : is_port_available st s = false) :
    handle_message msg s st = refresh_messages s st := by
  unfold handle_message
  rw [hsplit]
  simp [h]

theorem handle_unrecognized {msg : String} {s : String × Nat} {st : List Member}
    {s0 : String} {rest : List String} (hsplit : splitOnSpace msg = s0 :: rest)
    (h : is_port_available st s = false) (h1 : s0 ≠ "1") (h2 : s0 ≠ "2")
    (h3 : s0 ≠ "3") (h4 : s0 ≠ "4") (h5 : s0 ≠ "5") :
    handle_message msg s st = some (st, "Illegal request") := by
  unfold handle_message
  rw [hsplit]
  simp [h, h1, h2, h3, h4, h5]

/-! ## Handler normal forms -/

theorem join_group_eq (t : String) (rest : List String) (s : String × Nat)
    (st : List Member) :
    join_group (t :: rest) s st =
      some (st.map (fun m => m.add_message (mergeRest rest ++ " has joined"))
              ++ [⟨mergeRest rest, s.2, []⟩],
            display_other_members s
              (st.map (fun m => m.add_message (mergeRest rest ++ " has joined"))
                ++ [⟨mergeRest rest, s.2, []⟩])) := rfl

theorem refresh_messages_eq {s : String × Nat} {st : List Member} {i : Nat}
    (h : find_index_by_info st s = some i) (hi : i < st.length) :
    refresh_messages s st =
      if st[i].pending_messages = [] then some (st, "")
      else some (st.set i st[i].clear_message_board,
                 joinSep "\n" st[i].pending_messages ++ "\n") := by
  have hget : st.get? i = some st[i] := by
    rw [List.get?_eq_getElem?, List.getElem?_eq_getElem hi]
  unfold refresh_messages
  rw [h]
  show (st.get? i).bind _ = _
  rw [hget]
  show (if st[i].pending_messages.length == 0 then _ else _) = _
  by_cases hp : st[i].pending_messages = []
  · simp [hp]
  · obtain ⟨t, ts, hts⟩ := List.exists_cons_of_ne_nil hp
    rw [if_neg (by simp [hts]), if_neg hp, hts]
    rw [foldl_append_sep "\n" ts t "", string_empty_append]
    rfl

theorem send_message_eq {s : String × Nat} {st : List Member} {mem : Member}
    (h : find_member_by_info st s = some mem) (t : String) (rest : List String) :
    send_message (t :: rest) s st =
      refresh_messages s (st.map (fun m =>
        if m.name ≠ mem.name then m.add_message (mem.name ++ ": " ++ mergeRest rest)
        else m)) := by
  unfold send_message
  rw [h]
  rfl

theorem change_name_eq {s : String × Nat} {st : List Member} {mem : Member}
    (h : find_member_by_info st s = some mem) (t : String) (rest : List String) :
    change_name (t :: rest) s st =
      refresh_messages s (st.map (fun m =>
        if s.2 ≠ m.port then m.add_message (mem.name ++ " changed his name to " ++ mergeRest rest)
        else { m with name := mergeRest rest })) := by
  unfold change_name
  rw [h]
  rfl

theorem leave_group_eq {s : String × Nat} {st : List Member} {i : Nat}
    (h : find_index_by_info st s = some i) (hi : i < st.length) :
    leave_group s st =
      some ((st.eraseIdx i).map (fun m =>
        m.add_message (st[i].name ++ " has left the group")), "") := by
  have hget : st.get? i = some st[i] := by
    rw [List.get?_eq_getElem?, List.getElem?_eq_getElem hi]
  unfold leave_group
  rw [h]
  show (st.get? i).bind _ = _
  rw [hget]
  rfl

/-! ## Port preservation -/

theorem list_set_self {α : Type} : ∀ (l : List α) (i : Nat) (h : i < l.length),
    l.set i l[i] = l
  | [], i, h => absurd h (by simp)
  | _ :: _, 0, _ => rfl
  | a :: l, i + 1, h => by
    simp only [List.set_cons_succ, List.getElem_cons_succ]
    rw [list_set_self l i (by simpa using h)]

theorem ports_set_clear {st : List Member} {i : Nat} (hi : i < st.length) :
    ports (st.set i st[i].clear_message_board) = ports st := by
  rw [ports, List.map_set]
  show (st.map Member.port).set i st[i].port = _
  rw [← List.getElem_map Member.port (l := st) (h := by simpa using hi)]
  rw [list_set_self (st.map Member.port) i (by simpa using hi)]
  rfl

theorem is_port_available_ports {st st' : List Member} (h : ports st' = ports st)
    (s : String × Nat) : is_port_available st' s = is_port_available st s := by
  cases hav : is_port_available st s with
  | false =>
    rw [is_port_available_false_iff] at hav
    rw [is_port_available_false_iff, h]
    exact hav
  | true =>
    rw [is_port_available_iff] at hav
    rw [is_port_available_iff, h]
    exact hav

theorem refresh_messages_ports {s : String × Nat} {st st' : List Member} {resp : String}
    (h : refresh_messages s st = some (st', resp)) : ports st' = ports st := by
  cases hidx : find_index_by_info st s with
  | none =>
    unfold refresh_messages at h
    rw [hidx] at h
    simp at h
  | some i =>
    have hi := find_index_lt_length st s i hidx
    rw [refresh_messages_eq hidx hi] at h
    by_cases hp : st[i].pending_messages = []
    · rw [if_pos hp] at h
      injection h with h
      rw [← (Prod.mk.injEq ..).mp h |>.1]
    · rw [if_neg hp] at h
      injection h with h
      rw [← (Prod.mk.injEq ..).mp h |>.1]
      exact ports_set_clear hi

theorem find_index_of_ports {st st' : List Member} (h : ports st' = ports st)
    (s : String × Nat) : find_index_by_info st' s = find_index_by_info st s := by
  unfold find_index_by_info
  have h1 : (st'.map Member.port).findIdx? (fun q => s.2 == q)
      = (st.map Member.port).findIdx? (fun q => s.2 == q) := by
    show (ports st').findIdx? _ = (ports st).findIdx? _
    rw [h]
  rw [List.findIdx?_map, List.findIdx?_map] at h1
  exact h1

theorem bool_eq_false {b : Bool} (h : ¬ b = true) : b = false := by
  cases b
  · rfl
  · exact absurd rfl h

theorem opt_pair_inj {α β : Type} {x x' : α} {y y' : β}
    (h : (some (x, y) : Option (α × β)) = some (x', y')) :
    x' = x ∧ y' = y := by
  injection h with h
  obtain ⟨h1, h2⟩ := (Prod.mk.injEq ..).mp h
  exact ⟨h1.symm, h2.symm⟩

theorem map_eraseIdx {α β : Type} (f : α → β) :
    ∀ (l : List α) (i : Nat), (l.eraseIdx i).map f = (l.map f).eraseIdx i
  | [], _ => by simp
  | a :: l, 0 => by simp
  | a :: l, i + 1 => by
    simp only [List.eraseIdx_cons_succ, List.map_cons]
    rw [map_eraseIdx f l i]

theorem send_message_ports {s : String × Nat} {t : String} {rest : List String}
    {st st' : List Member} {resp : String}
    (h : send_message (t :: rest) s st = some (st', resp)) : ports st' = ports st := by
  cases hf : find_member_by_info st s with
  | none =>
    unfold send_message at h
    rw [hf] at h
    simp at h
  | some mem =>
    rw [send_message_eq hf t rest] at h
    rw [refresh_messages_ports h]
    exact ports_map_of_port_eq _ (fun m => by split <;> rfl) st

theorem change_name_ports {s : String × Nat} {t : String} {rest : List String}
    {st st' : List Member} {resp : String}
    (h : change_name (t :: rest) s st = some (st', resp)) : ports st' = ports st := by
  cases hf : find_member_by_info st s with
  | none =>
    unfold change_name at h
    rw [hf] at h
    simp at h
  | some mem =>
    rw [change_name_eq hf t rest] at h
    rw [refresh_messages_ports h]
    exact ports_map_of_port_eq _ (fun m => by split <;> rfl) st

theorem leave_group_ports {s : String × Nat} {st st' : List Member} {resp : String}
    (h : leave_group s st = some (st', resp)) :
    ∃ i, find_index_by_info st s = some i ∧ ports st' = (ports st).eraseIdx i := by
  cases hidx : find_index_by_info st s with
  | none =>
    unfold leave_group at h
    rw [hidx] at h
    simp at h
  | some i =>
    have hi := find_index_lt_length st s i hidx
    rw [leave_group_eq hidx hi] at h
    obtain ⟨hst, _⟩ := opt_pair_inj h
    refine ⟨i, rfl, ?_⟩
    rw [hst,
      ports_map_of_port_eq (fun m => m.add_message (st[i].name ++ " has left the group"))
        (fun m => rfl),
      ports, map_eraseIdx]
    rfl

/-- Every dispatched step keeps the registered ports duplicate-free. -/
theorem handle_message_nodup {msg : String} {s : String × Nat} {st st' : List Member}
    {resp : String} (hn : (ports st).Nodup)
    (h : handle_message msg s st = some (st', resp)) : (ports st').Nodup := by
  obtain ⟨s0, rest, hsplit⟩ := List.exists_cons_of_ne_nil (splitOnSpace_ne_nil msg)
  by_cases h1 : s0 = "1"
  · subst h1
    cases hav : is_port_available st s with
    | false =>
      rw [handle_join_unavail hsplit hav] at h
      rw [(opt_pair_inj h).1]
      exact hn
    | true =>
      rw [handle_join_avail hsplit hav, join_group_eq] at h
      rw [(opt_pair_inj h).1]
      rw [ports_append,
        ports_map_of_port_eq (fun m => m.add_message (mergeRest rest ++ " has joined"))
          (fun m => rfl)]
      rw [is_port_available_iff] at hav
      rw [List.nodup_append]
      refine ⟨hn, by simp [ports], ?_⟩
      intro x hx hmem
      simp [ports] at hmem
      subst hmem
      exact hav hx
  · by_cases hav : is_port_available st s = true
    · rw [handle_unregistered hsplit h1 hav] at h
      rw [(opt_pair_inj h).1]
      exact hn
    · have hav2 := bool_eq_false hav
      by_cases h2 : s0 = "2"
      · subst h2
        rw [handle_send hsplit hav2] at h
        rw [send_message_ports h]
        exact hn
      by_cases h3 : s0 = "3"
      · subst h3
        rw [handle_rename hsplit hav2] at h
        rw [change_name_ports h]
        exact hn
      by_cases h4 : s0 = "4"
      · subst h4
        rw [handle_leave hsplit hav2] at h
        obtain ⟨i, _, hp⟩ := leave_group_ports h
        rw [hp]
        exact hn.sublist (List.eraseIdx_sublist (ports st) i)
      by_cases h5 : s0 = "5"
      · subst h5
        rw [handle_poll hsplit hav2] at h
        rw [refresh_messages_ports h]
        exact hn
      rw [handle_unrecognized hsplit hav2 h1 h2 h3 h4 h5] at h
      rw [(opt_pair_inj h).1]
      exact hn

/-- The dispatcher is total: no raw input reaches the fatal `none`. -/
theorem handle_message_total (msg : String) (s : String × Nat) (st : List Member) :
    (handle_message msg s st).isSome = true := by
  obtain ⟨s0, rest, hsplit⟩ := List.exists_cons_of_ne_nil (splitOnSpace_ne_nil msg)
  by_cases h1 : s0 = "1"
  · subst h1
    cases hav : is_port_available st s with
    | false => rw [handle_join_unavail hsplit hav]; rfl
    | true => rw [handle_join_avail hsplit hav, join_group_eq]; rfl
  · by_cases hav : is_port_available st s = true
    · rw [handle_unregistered hsplit h1 hav]; rfl
    · have hav2 := bool_eq_false hav
      have href : ∀ st2 : List Member, ports st2 = ports st →
          (refresh_messages s st2).isSome = true := by
        intro st2 hp2
        obtain ⟨i, hidx⟩ := find_index_of_unavailable st s hav2
        have hidx2 : find_index_by_info st2 s = some i := by
          rw [find_index_of_ports hp2]
          exact hidx
        have hi2 := find_index_lt_length st2 s i hidx2
        rw [refresh_messages_eq hidx2 hi2]
        by_cases hp : st2[i].pending_messages = [] <;> simp [hp]
      by_cases h2 : s0 = "2"
      · subst h2
        rw [handle_send hsplit hav2]
        obtain ⟨i, hidx⟩ := find_index_of_unavailable st s hav2
        obtain ⟨hi, hf⟩ := find_member_eq_get st s i hidx
        rw [send_message_eq hf "2" rest]
        exact href _ (ports_map_of_port_eq _ (fun m => by split <;> rfl) st)
      by_cases h3 : s0 = "3"
      · subst h3
        rw [handle_rename hsplit hav2]
        obtain ⟨i, hidx⟩ := find_index_of_unavailable st s hav2
        obtain ⟨hi, hf⟩ := find_member_eq_get st s i hidx
        rw [change_name_eq hf "3" rest]
        exact href _ (ports_map_of_port_eq _ (fun m => by split <;> rfl) st)
      by_cases h4 : s0 = "4"
      · subst h4
        rw [handle_leave hsplit hav2]
        obtain ⟨i, hidx⟩ := find_index_of_unavailable st s hav2
        have hi := find_index_lt_length st s i hidx
        rw [leave_group_eq hidx hi]
        rfl
      by_cases h5 : s0 = "5"
      · subst h5
        rw [handle_poll hsplit hav2]
        exact href st rfl
      · rw [handle_unrecognized hsplit hav2 h1 h2 h3 h4 h5]
        rfl

/-! ## Claim theorems -/

/-- C1: Registry uniqueness: after any sequence of dispatched commands starting
from the empty registry, no two simultaneously active members share a port
(`addressKey`); moreover a Join arriving from an address whose port is already
registered yields the `"Illegal request"` response and leaves the registry
state unchanged. -/
theorem registry_uniqueness :
    (∀ (cmds : List (String × String × Nat)) (st : List Member) (resps : List String),
      runAll cmds [] = some (st, resps) → (ports st).Nodup) ∧
    (∀ (msg : String) (s : String × Nat) (st : List Member) (rest : List String),
      splitOnSpace msg = "1" :: rest → is_port_available st s = false →
      handle_message msg s st = some (st, "Illegal request")) := by
  constructor
  · have main : ∀ (cmds : List (String × String × Nat)) (st0 : List Member),
        (ports st0).Nodup → ∀ st resps, runAll cmds st0 = some (st, resps) →
        (ports st).Nodup := by
      intro cmds
      induction cmds with
      | nil =>
        intro st0 h0 st resps hrun
        rw [(opt_pair_inj hrun).1]
        exact h0
      | cons c rest ih =>
        intro st0 h0 st resps hrun
        obtain ⟨msg, ip, p⟩ := c
        unfold runAll at hrun
        cases hstep : handle_message msg (ip, p) st0 with
        | none => rw [hstep] at hrun; simp at hrun
        | some pr =>
          obtain ⟨st2, resp⟩ := pr
          rw [hstep] at hrun
          dsimp only at hrun
          cases hrest : runAll rest st2 with
          | none => rw [hrest] at hrun; simp at hrun
          | some pr2 =>
            obtain ⟨stF, resps2⟩ := pr2
            rw [hrest] at hrun
            have hn2 := handle_message_nodup h0 hstep
            have hfin := ih st2 hn2 stF resps2 hrest
            have := opt_pair_inj hrun
            rw [this.1]
            exact hfin
    intro cmds st resps hrun
    exact main cmds [] (by simp [ports]) st resps hrun
  · intro msg s st rest hsplit hav
    exact handle_join_unavail hsplit hav

/-- C1 witness: a concrete two-Join trace keeps ports duplicate-free, and a
Join from a registered port is rejected and changes nothing. -/
theorem registry_uniqueness_witness :
    (ports [Member.mk "Alice" 1 ["Bob has joined"], Member.mk "Bob" 2 []]).Nodup ∧
    handle_message "1 Bob" ("h", 1) [⟨"A", 1, []⟩] =
      some ([⟨"A", 1, []⟩], "Illegal request") := by
  constructor
  · exact registry_uniqueness.1 [("1 Alice", "a", 1), ("1 Bob", "b", 2)]
      [Member.mk "Alice" 1 ["Bob has joined"], Member.mk "Bob" 2 []]
      ["", "Alice"] (by rfl)
  · exact registry_uniqueness.2 "1 Bob" ("h", 1) [⟨"A", 1, []⟩] ["Bob"]
      (by rfl) (by rfl)

/-- C9 counterexample: the claim asserts some raw input decodes to an empty
token list; in fact Python `split(' ')` always yields at least one token, so
no such input exists. -/
theorem zero_token_input_impossible : ¬ ∃ s : String, splitOnSpace s = [] := by
  rintro ⟨s, h⟩
  exact splitOnSpace_ne_nil s h

/-- C9 (amended): decoding never yields an empty token list — every raw input
produces at least one token, the dispatcher handles every input without
reaching an unhandled fatal condition, and the empty raw line decodes to a
single empty token which is answered as an unrecognized request. -/
theorem zero_token_handling :
    (∀ s : String, splitOnSpace s ≠ []) ∧
    (∀ (msg : String) (s : String × Nat) (st : List Member),
      (handle_message msg s st).isSome = true) ∧
    splitOnSpace "" = [""] ∧
    handle_message "" ("host", 0) [] = some ([], "Illegal request") :=
  ⟨splitOnSpace_ne_nil, handle_message_total, rfl, rfl⟩

/-- C9 witness: the amended claim evaluated at concrete inputs. -/
theorem zero_token_handling_witness :
    splitOnSpace "a b" ≠ [] ∧ (handle_message "5" ("h", 9) []).isSome = true :=
  ⟨zero_token_handling.1 "a b", zero_token_handling.2.1 "5" ("h", 9) []⟩

theorem unavailable_of_find_index {st : List Member} {s : String × Nat} {i : Nat}
    (h : find_index_by_info st s = some i) : is_port_available st s = false := by
  have hi := find_index_lt_length st s i h
  have hp := find_index_port st s i h hi
  rw [is_port_available_false_iff, ← hp]
  exact List.mem_map_of_mem Member.port (List.getElem_mem hi)

/-- C6: Codec merge round-trip: `merge_str` drops the first token and joins the
remaining tokens with a single space (the empty string when no tokens remain
after the drop); splitting the raw line `"c p"` on single spaces for a
space-free code `c` and merging reconstructs the payload `p` exactly. -/
theorem merge_round_trip :
    (∀ (t : String) (ts : List String), merge_str (t :: ts) = some (joinSep " " ts)) ∧
    (∀ (c p : String), (∀ ch ∈ c.data, ch ≠ ' ') →
      merge_str (splitOnSpace (c ++ " " ++ p)) = some p) := by
  constructor
  · intro t ts
    show some (mergeRest ts) = some (joinSep " " ts)
    rw [mergeRest_eq_joinSep]
  · intro c p h
    rw [splitOnSpace_sep c p h]
    show some (mergeRest (splitOnSpace p)) = some p
    rw [mergeRest_eq_joinSep, joinSep_splitOnSpace]

/-- C6 witness: the round trip evaluated on a payload containing a space. -/
theorem merge_round_trip_witness :
    merge_str ["2", "hello", "world"] = some "hello world" ∧
    merge_str (splitOnSpace ("2" ++ " " ++ "hello world")) = some "hello world" := by
  constructor
  · rw [merge_round_trip.1 "2" ["hello", "world"]]
    rfl
  · exact merge_round_trip.2 "2" "hello world" (by decide)

/-- C3: Mailbox drain is exactly-once with fixed formatting: draining a
registered member's mailbox returns every pending notification exactly once,
in append order, joined by newline with a trailing newline after the final
entry, returns the empty string when none are pending, leaves the mailbox
empty immediately afterwards, and a Poll command performs exactly this drain. -/
theorem mailbox_drain :
    ∀ (s : String × Nat) (st : List Member) (i : Nat),
      find_index_by_info st s = some i →
      ∀ hi : i < st.length,
      (st[i].pending_messages = [] → refresh_messages s st = some (st, "")) ∧
      (st[i].pending_messages ≠ [] →
        refresh_messages s st =
          some (st.set i st[i].clear_message_board,
                joinSep "\n" st[i].pending_messages ++ "\n") ∧
        (st.set i st[i].clear_message_board)[i]?.map Member.pending_messages
          = some []) ∧
      (∀ (msg : String) (rest : List String), splitOnSpace msg = "5" :: rest →
        handle_message msg s st = refresh_messages s st) := by
  intro s st i hidx hi
  refine ⟨?_, ?_, ?_⟩
  · intro hp
    rw [refresh_messages_eq hidx hi, if_pos hp]
  · intro hp
    rw [refresh_messages_eq hidx hi, if_neg hp]
    refine ⟨rfl, ?_⟩
    rw [List.getElem?_set_self hi]
    rfl
  · intro msg rest hsplit
    exact handle_poll hsplit (unavailable_of_find_index hidx)

/-- C3 witness: a two-entry mailbox drains to `"x\ny\n"` and is empty after;
an empty mailbox answers with the empty string. -/
theorem mailbox_drain_witness :
    refresh_messages ("h", 1) [⟨"A", 1, ["x", "y"]⟩] = some ([⟨"A", 1, []⟩], "x\ny\n") ∧
    refresh_messages ("h", 2) [⟨"B", 2, []⟩] = some ([⟨"B", 2, []⟩], "") := by
  constructor
  · exact ((mailbox_drain ("h", 1) [⟨"A", 1, ["x", "y"]⟩] 0 rfl
      (by decide)).2.1 (by decide)).1
  · exact (mailbox_drain ("h", 2) [⟨"B", 2, []⟩] 0 rfl (by decide)).1 rfl

/-- C10: a Join whose raw message is exactly the single token "1" is not
rejected: it registers a member whose display name is the empty string, and
every previously existing member's mailbox gains the notification
`" has joined"` (leading space, empty name). -/
theorem join_empty_name :
    ∀ (s : String × Nat) (st : List Member), is_port_available st s = true →
      handle_message "1" s st =
        some (st.map (fun m => m.add_message " has joined") ++ [⟨"", s.2, []⟩],
              display_other_members s
                (st.map (fun m => m.add_message " has joined") ++ [⟨"", s.2, []⟩])) := by
  intro s st hav
  have hsplit : splitOnSpace "1" = "1" :: [] := rfl
  rw [handle_join_avail hsplit hav, join_group_eq]
  rfl

/-- C10 witness: a bare "1" from a fresh port registers an empty-named member
and queues `" has joined"` for the existing member. -/
theorem join_empty_name_witness :
    handle_message "1" ("h", 7) [⟨"A", 1, ["x"]⟩] =
      some ([⟨"A", 1, ["x", " has joined"]⟩, ⟨"", 7, []⟩], "A") :=
  join_empty_name ("h", 7) [⟨"A", 1, ["x"]⟩] rfl

/-- C8 counterexample: in Scenario 1 the Poll from P1 answers
`"Bob has joined\n"` (with the trailing newline the drain always appends), not
the claimed exact text `"Bob has joined"`. -/
theorem scenario1_trailing_newline :
    runAll [("1 Alice", "a", 1), ("1 Bob", "b", 2), ("5", "a", 1)] [] =
      some ([⟨"Alice", 1, []⟩, ⟨"Bob", 2, []⟩], ["", "Alice", "Bob has joined\n"]) ∧
    "Bob has joined\n" ≠ "Bob has joined" := by
  exact ⟨rfl, by decide⟩

/-- C8 (amended): from the empty registry, Join("Alice") from port P1 answers
the empty string, Join("Bob") from a distinct port P2 answers "Alice", and a
subsequent Poll from P1 answers exactly `"Bob has joined\n"` (the queued
notification followed by the drain's trailing newline). -/
theorem scenario1 :
    ∀ (P1 P2 : Nat) (ip1 ip2 ip3 : String), P1 ≠ P2 →
      handle_message "1 Alice" (ip1, P1) [] = some ([⟨"Alice", P1, []⟩], "") ∧
      handle_message "1 Bob" (ip2, P2) [⟨"Alice", P1, []⟩] =
        some ([⟨"Alice", P1, ["Bob has joined"]⟩, ⟨"Bob", P2, []⟩], "Alice") ∧
      handle_message "5" (ip3, P1) [⟨"Alice", P1, ["Bob has joined"]⟩, ⟨"Bob", P2, []⟩] =
        some ([⟨"Alice", P1, []⟩, ⟨"Bob", P2, []⟩], "Bob has joined\n") := by
  intro P1 P2 ip1 ip2 ip3 hne
  refine ⟨?_, ?_, ?_⟩
  · have hsplit : splitOnSpace "1 Alice" = "1" :: ["Alice"] := rfl
    have hav : is_port_available [] (ip1, P1) = true := rfl
    rw [handle_join_avail hsplit hav, join_group_eq]
    rfl
  · have hsplit : splitOnSpace "1 Bob" = "1" :: ["Bob"] := rfl
    have hb12 : (P1 == P2) = false := by simp [hne]
    have hb21 : (P2 == P1) = false := by simp [Ne.symm hne]
    have hav : is_port_available [⟨"Alice", P1, []⟩] (ip2, P2) = true := by
      simp [is_port_available, hb12]
    rw [handle_join_avail hsplit hav, join_group_eq]
    have hfi : find_index_by_info
        [⟨"Alice", P1, ["Bob has joined"]⟩, ⟨"Bob", P2, []⟩] (ip2, P2) = some 1 := by
      simp [find_index_by_info, hb21]
    have hdisp : display_other_members (ip2, P2)
        [⟨"Alice", P1, ["Bob has joined"]⟩, ⟨"Bob", P2, []⟩] = "Alice" := by
      unfold display_other_members
      rw [hfi]
      rfl
    show (some ([⟨"Alice", P1, ["Bob has joined"]⟩, ⟨"Bob", P2, []⟩],
        display_other_members (ip2, P2)
          [⟨"Alice", P1, ["Bob has joined"]⟩, ⟨"Bob", P2, []⟩])
        : Option (List Member × String)) =
      some ([⟨"Alice", P1, ["Bob has joined"]⟩, ⟨"Bob", P2, []⟩], "Alice")
    rw [hdisp]
  · have hsplit : splitOnSpace "5" = "5" :: [] := rfl
    have hav : is_port_available
        [⟨"Alice", P1, ["Bob has joined"]⟩, ⟨"Bob", P2, []⟩] (ip3, P1) = false := by
      simp [is_port_available]
    rw [handle_poll hsplit hav]
    have hfi : find_index_by_info
        [⟨"Alice", P1, ["Bob has joined"]⟩, ⟨"Bob", P2, []⟩] (ip3, P1) = some 0 := by
      simp [find_index_by_info]
    have hlen : 0 < ([⟨"Alice", P1, ["Bob has joined"]⟩,
        ⟨"Bob", P2, []⟩] : List Member).length := by simp
    rw [refresh_messages_eq hfi hlen]
    rw [if_neg (by simp)]
    rfl

/-- C8 witness: the amended scenario evaluated at the concrete ports 1 and 2. -/
theorem scenario1_witness :
    handle_message "1 Alice" ("a", 1) [] = some ([⟨"Alice", 1, []⟩], "") ∧
    handle_message "1 Bob" ("b", 2) [⟨"Alice", 1, []⟩] =
      some ([⟨"Alice", 1, ["Bob has joined"]⟩, ⟨"Bob", 2, []⟩], "Alice") ∧
    handle_message "5" ("a", 1) [⟨"Alice", 1, ["Bob has joined"]⟩, ⟨"Bob", 2, []⟩] =
      some ([⟨"Alice", 1, []⟩, ⟨"Bob", 2, []⟩], "Bob has joined\n") :=
  scenario1 1 2 "a" "b" "a" (by decide)

/-- C7: Port-only identity (noninterference in the sender IP): a single
dispatch, and any trace of dispatches, fed identical commands whose sender
addresses agree on port but differ arbitrarily in IP, produce identical
registry states and identical response texts — a request from a different host
with a registered member's port is treated as that member. -/
theorem port_only_identity :
    (∀ (msg : String) (ip1 ip2 : String) (p : Nat) (st : List Member),
      handle_message msg (ip1, p) st = handle_message msg (ip2, p) st) ∧
    (∀ (cmds1 cmds2 : List (String × String × Nat)),
      List.Forall₂ (fun a b => a.1 = b.1 ∧ a.2.2 = b.2.2) cmds1 cmds2 →
      ∀ st : List Member, runAll cmds1 st = runAll cmds2 st) := by
  constructor
  · intro msg ip1 ip2 p st
    rfl
  · intro cmds1 cmds2 hrel
    induction hrel with
    | nil => intro st; rfl
    | cons hab hrest ih =>
      intro st
      rename_i a b l1 l2
      obtain ⟨msg1, ip1, p1⟩ := a
      obtain ⟨msg2, ip2, p2⟩ := b
      obtain ⟨hm, hp⟩ := hab
      dsimp only at hm hp
      subst hm
      subst hp
      show runAll ((msg1, ip1, p1) :: l1) st = runAll ((msg1, ip2, p1) :: l2) st
      unfold runAll
      have hstep : handle_message msg1 (ip2, p1) st = handle_message msg1 (ip1, p1) st := rfl
      rw [hstep]
      cases handle_message msg1 (ip1, p1) st with
      | none => rfl
      | some pr =>
        obtain ⟨st2, resp⟩ := pr
        dsimp only
        rw [ih st2]

/-- C7 witness: a concrete trace replayed with every sender IP changed gives
the same final state and responses. -/
theorem port_only_identity_witness :
    runAll [("1 A", "h1", 5), ("2 hi", "h2", 5)] [] =
      runAll [("1 A", "g9", 5), ("2 hi", "g8", 5)] [] :=
  port_only_identity.2 _ _
    (List.Forall₂.cons ⟨rfl, rfl⟩ (List.Forall₂.cons ⟨rfl, rfl⟩ List.Forall₂.nil)) []

theorem nodup_not_mem_eraseIdx :
    ∀ (l : List Nat) (i : Nat) (hi : i < l.length), l.Nodup →
      l[i] ∉ l.eraseIdx i
  | a :: l, 0, _, hn => by
    simp only [List.eraseIdx_cons_zero, List.getElem_cons_zero]
    exact (List.nodup_cons.mp hn).1
  | a :: l, i + 1, hi, hn => by
    simp only [List.eraseIdx_cons_succ, List.getElem_cons_succ]
    have hlt : i < l.length := by simpa using hi
    obtain ⟨ha, hnl⟩ := List.nodup_cons.mp hn
    intro hmem
    rcases List.mem_cons.mp hmem with hq | hq
    · exact ha (hq ▸ List.getElem_mem hlt)
    · exact nodup_not_mem_eraseIdx l i hlt hnl hq

/-- C5: Leave semantics and finality: a Leave from a registered sender removes
exactly that sender, appends `"<name> has left the group"` to every remaining
member's mailbox, responds with the empty string (the departing member's
pending messages are discarded), and afterwards the departing port is
immediately available again: a new Join from it is dispatched to `join_group`
and succeeds, while any non-Join command from it answers `"Illegal request"`
(covering Send, Rename and Poll). -/
theorem leave_semantics :
    ∀ (s : String × Nat) (st st2 : List Member) (i : Nat),
      (ports st).Nodup →
      find_index_by_info st s = some i →
      ∀ hi : i < st.length,
      st2 = (st.eraseIdx i).map
        (fun m => m.add_message (st[i].name ++ " has left the group")) →
      (∀ (msg : String) (rest : List String), splitOnSpace msg = "4" :: rest →
        handle_message msg s st = some (st2, "")) ∧
      (∀ ip2 : String, is_port_available st2 (ip2, s.2) = true) ∧
      (∀ (msg : String) (rest : List String) (ip2 : String),
        splitOnSpace msg = "1" :: rest →
        handle_message msg (ip2, s.2) st2 = join_group ("1" :: rest) (ip2, s.2) st2 ∧
        (join_group ("1" :: rest) (ip2, s.2) st2).isSome = true) ∧
      (∀ (msg : String) (s0 : String) (rest : List String) (ip2 : String),
        splitOnSpace msg = s0 :: rest → s0 ≠ "1" →
        handle_message msg (ip2, s.2) st2 = some (st2, "Illegal request")) := by
  intro s st st2 i hn hidx hi hst2
  have hav2 : ∀ ip2 : String, is_port_available st2 (ip2, s.2) = true := by
    intro ip2
    have hports : ports st2 = (ports st).eraseIdx i := by
      rw [hst2,
        ports_map_of_port_eq (fun m => m.add_message (st[i].name ++ " has left the group"))
          (fun m => rfl),
        ports, map_eraseIdx]
      rfl
    rw [is_port_available_iff, hports]
    have hip : i < (ports st).length := by simpa [ports] using hi
    have hgp : (ports st)[i] = s.2 := by
      show (st.map Member.port)[i] = s.2
      rw [List.getElem_map]
      exact find_index_port st s i hidx hi
    have := nodup_not_mem_eraseIdx (ports st) i hip hn
    rw [hgp] at this
    exact this
  refine ⟨?_, hav2, ?_, ?_⟩
  · intro msg rest hsplit
    rw [handle_leave hsplit (unavailable_of_find_index hidx), leave_group_eq hidx hi, hst2]
  · intro msg rest ip2 hsplit
    refine ⟨handle_join_avail hsplit (hav2 ip2), ?_⟩
    rw [join_group_eq]
    rfl
  · intro msg s0 rest ip2 hsplit h0
    exact handle_unregistered hsplit h0 (hav2 ip2)

/-- C5 witness: a concrete Leave removes the sender, notifies the survivor,
answers the empty string, and the port is free again while a Send from it is
rejected. -/
theorem leave_semantics_witness :
    handle_message "4" ("h", 2) [⟨"A", 1, []⟩, ⟨"B", 2, ["m"]⟩] =
      some ([⟨"A", 1, ["B has left the group"]⟩], "") ∧
    is_port_available [⟨"A", 1, ["B has left the group"]⟩] ("g", 2) = true ∧
    handle_message "2 x" ("g", 2) [⟨"A", 1, ["B has left the group"]⟩] =
      some ([⟨"A", 1, ["B has left the group"]⟩], "Illegal request") := by
  have h := leave_semantics ("h", 2) [⟨"A", 1, []⟩, ⟨"B", 2, ["m"]⟩]
    [⟨"A", 1, ["B has left the group"]⟩] 1 (by decide) rfl (by decide) rfl
  exact ⟨h.1 "4" [] rfl, h.2.1 "g", h.2.2.2 "2 x" "2" ["x"] "g" rfl (by decide)⟩

theorem append_newline_ne_illegal (x : String) : x ++ "\n" ≠ "Illegal request" := by
  intro h
  have hd := congrArg String.data h
  rw [String.data_append] at hd
  have hnl : ("\n" : String).data = ['\n'] := rfl
  rw [hnl] at hd
  have hlast := congrArg List.getLast? hd
  rw [List.getLast?_concat] at hlast
  have : ("Illegal request" : String).data.getLast? = some 't' := rfl
  rw [this] at hlast
  injection hlast with hlast
  exact absurd hlast (by decide)

theorem refresh_resp_ne_illegal {s : String × Nat} {st st2 : List Member} {resp : String}
    (h : refresh_messages s st = some (st2, resp)) : resp ≠ "Illegal request" := by
  cases hidx : find_index_by_info st s with
  | none =>
    unfold refresh_messages at h
    rw [hidx] at h
    simp at h
  | some i =>
    have hi := find_index_lt_length st s i hidx
    rw [refresh_messages_eq hidx hi] at h
    by_cases hp : st[i].pending_messages = []
    · rw [if_pos hp] at h
      rw [(opt_pair_inj h).2]
      decide
    · rw [if_neg hp] at h
      rw [(opt_pair_inj h).2]
      exact append_newline_ne_illegal _

/-- C4 counterexample: a perfectly legal Join (fresh port, cases (a)-(c) all
false) answers the literal text `"Illegal request"` — because the response is
the other members' name list and an existing member is named
"Illegal request" — and it does mutate the registry, contradicting the claimed
"if and only if". -/
theorem illegal_text_collision :
    is_port_available [⟨"Illegal request", 1, []⟩] ("h", 2) = true ∧
    handle_message "1 Bob" ("h", 2) [⟨"Illegal request", 1, []⟩] =
      some ([⟨"Illegal request", 1, ["Bob has joined"]⟩, ⟨"Bob", 2, []⟩],
            "Illegal request") :=
  ⟨rfl, rfl⟩

/-- C4 (amended): the dispatcher answers `"Illegal request"` and mutates no
state whenever (a) a Join arrives from a registered port, (b) any command with
a non-"1" first token arrives from an unregistered address, or (c) a
registered sender's first token is not one of "1"-"5"; conversely, an
executed Send/Rename/Leave/Poll from a registered sender never answers that
literal text (only a Join's member-list response can coincide with it). -/
theorem illegal_request_conditions :
    ∀ (msg : String) (s : String × Nat) (st : List Member) (s0 : String)
      (rest : List String),
      splitOnSpace msg = s0 :: rest →
      ((s0 = "1" ∧ is_port_available st s = false) →
        handle_message msg s st = some (st, "Illegal request")) ∧
      ((s0 ≠ "1" ∧ is_port_available st s = true) →
        handle_message msg s st = some (st, "Illegal request")) ∧
      ((is_port_available st s = false ∧ s0 ∉ (["1", "2", "3", "4", "5"] : List String)) →
        handle_message msg s st = some (st, "Illegal request")) ∧
      (is_port_available st s = false → s0 ∈ (["2", "3", "4", "5"] : List String) →
        ∀ (st2 : List Member) (resp : String),
          handle_message msg s st = some (st2, resp) → resp ≠ "Illegal request") := by
  intro msg s st s0 rest hsplit
  refine ⟨?_, ?_, ?_, ?_⟩
  · rintro ⟨h1, hav⟩
    subst h1
    exact handle_join_unavail hsplit hav
  · rintro ⟨h1, hav⟩
    exact handle_unregistered hsplit h1 hav
  · rintro ⟨hav, hmem⟩
    simp only [List.mem_cons, List.not_mem_nil, or_false, not_or] at hmem
    obtain ⟨h1, h2, h3, h4, h5⟩ := hmem
    exact handle_unrecognized hsplit hav h1 h2 h3 h4 h5
  · intro hav hmem st2 resp h
    obtain ⟨i, hidx⟩ := find_index_of_unavailable st s hav
    simp only [List.mem_cons, List.not_mem_nil, or_false] at hmem
    rcases hmem with h2 | h3 | h4 | h5
    · subst h2
      rw [handle_send hsplit hav] at h
      obtain ⟨hi, hf⟩ := find_member_eq_get st s i hidx
      rw [send_message_eq hf "2" rest] at h
      exact refresh_resp_ne_illegal h
    · subst h3
      rw [handle_rename hsplit hav] at h
      obtain ⟨hi, hf⟩ := find_member_eq_get st s i hidx
      rw [change_name_eq hf "3" rest] at h
      exact refresh_resp_ne_illegal h
    · subst h4
      rw [handle_leave hsplit hav] at h
      have hi := find_index_lt_length st s i hidx
      rw [leave_group_eq hidx hi] at h
      rw [(opt_pair_inj h).2]
      decide
    · subst h5
      rw [handle_poll hsplit hav] at h
      exact refresh_resp_ne_illegal h

/-- C4 witness: the amended conditions evaluated at concrete inputs. -/
theorem illegal_request_conditions_witness :
    handle_message "1 X" ("h", 1) [⟨"A", 1, []⟩] = some ([⟨"A", 1, []⟩], "Illegal request") ∧
    handle_message "2 hi" ("h", 9) [⟨"A", 1, []⟩] = some ([⟨"A", 1, []⟩], "Illegal request") ∧
    handle_message "7 zz" ("h", 1) [⟨"A", 1, []⟩] = some ([⟨"A", 1, []⟩], "Illegal request") ∧
    ("" : String) ≠ "Illegal request" := by
  refine ⟨?_, ?_, ?_, ?_⟩
  · exact (illegal_request_conditions "1 X" ("h", 1) [⟨"A", 1, []⟩] "1" ["X"] rfl).1
      ⟨rfl, rfl⟩
  · exact (illegal_request_conditions "2 hi" ("h", 9) [⟨"A", 1, []⟩] "2" ["hi"] rfl).2.1
      ⟨by decide, rfl⟩
  · exact (illegal_request_conditions "7 zz" ("h", 1) [⟨"A", 1, []⟩] "7" ["zz"] rfl).2.2.1
      ⟨rfl, by decide⟩
  · exact (illegal_request_conditions "4" ("h", 1) [⟨"A", 1, []⟩] "4" [] rfl).2.2.2
      rfl (by decide) [⟨"A", 1, []⟩].tail "" rfl

theorem refresh_after_map (f : Member → Member) (hport : ∀ m, (f m).port = m.port)
    (s : String × Nat) (st : List Member) (i : Nat)
    (hidx : find_index_by_info st s = some i) (hi : i < st.length)
    (hpend : (f st[i]).pending_messages = st[i].pending_messages) :
    ∃ st2 resp, refresh_messages s (st.map f) = some (st2, resp) ∧
      st2[i]?.map Member.pending_messages = some [] ∧
      st2[i]?.map Member.name = some ((f st[i]).name) ∧
      ∀ j : Nat, j ≠ i → st2[j]? = st[j]?.map f := by
  have hports : ports (st.map f) = ports st := ports_map_of_port_eq f hport st
  have hidx2 : find_index_by_info (st.map f) s = some i := by
    rw [find_index_of_ports hports]
    exact hidx
  have hi2 : i < (st.map f).length := by simpa using hi
  have hgm : (st.map f)[i] = f st[i] := List.getElem_map f
  rw [refresh_messages_eq hidx2 hi2]
  by_cases hp : (st.map f)[i].pending_messages = []
  · refine ⟨st.map f, "", by rw [if_pos hp], ?_, ?_, ?_⟩
    · rw [List.getElem?_eq_getElem hi2, hgm]
      rw [hgm, hpend] at hp
      rw [Option.map_some', hpend, hp]
    · rw [List.getElem?_eq_getElem hi2, hgm]
      rfl
    · intro j _
      rw [List.getElem?_map]
  · refine ⟨(st.map f).set i ((st.map f)[i].clear_message_board), _,
      by rw [if_neg hp], ?_, ?_, ?_⟩
    · rw [List.getElem?_set_self hi2]
      rfl
    · rw [List.getElem?_set_self hi2, hgm]
      rfl
    · intro j hj
      rw [List.getElem?_set_ne (fun h => hj h.symm), List.getElem?_map]

/-- C2 counterexample: with two registered members both named "A", a Send from
port 1 leaves the other member's (port 2) mailbox unchanged — the code
excludes recipients by display name, not by sender identity — contradicting
the claim that every member other than the sender gains the notification. -/
theorem send_excludes_by_name :
    handle_message "2 hi" ("h", 1) [⟨"A", 1, []⟩, ⟨"A", 2, []⟩] =
      some ([⟨"A", 1, []⟩, ⟨"A", 2, []⟩], "") ∧
    (([⟨"A", 1, []⟩, ⟨"A", 2, []⟩] : List Member)[1]).pending_messages ≠ ["A: hi"] :=
  ⟨rfl, by decide⟩

/-- C2 (amended): for a Send or Rename from a registered sender: a Rename
appends its notification to exactly the members other than the sender (every
other index gains it) and renames the sender; a Send appends
`"<name>: <message>"` to exactly those other members whose display name
differs from the sender's — a member sharing the sender's display name
receives nothing — and in neither case does the sender's own mailbox gain the
notification: it is drained to empty by the response. -/
theorem notification_targeting :
    ∀ (s : String × Nat) (st : List Member) (i : Nat) (c : String) (ts : List String),
      (ports st).Nodup →
      find_index_by_info st s = some i →
      ∀ hi : i < st.length,
      (∃ st2 resp, send_message (c :: ts) s st = some (st2, resp) ∧
        st2[i]?.map Member.pending_messages = some [] ∧
        (∀ j, ∀ hj : j < st.length, j ≠ i →
          (st[j].name ≠ st[i].name →
            st2[j]?.map Member.pending_messages =
              some (st[j].pending_messages ++ [st[i].name ++ ": " ++ mergeRest ts])) ∧
          (st[j].name = st[i].name →
            st2[j]?.map Member.pending_messages = some st[j].pending_messages))) ∧
      (∃ st3 resp2, change_name (c :: ts) s st = some (st3, resp2) ∧
        st3[i]?.map Member.pending_messages = some [] ∧
        st3[i]?.map Member.name = some (mergeRest ts) ∧
        (∀ j, ∀ hj : j < st.length, j ≠ i →
          st3[j]?.map Member.pending_messages =
            some (st[j].pending_messages ++
              [st[i].name ++ " changed his name to " ++ mergeRest ts]) ∧
          st3[j]?.map Member.name = some st[j].name)) := by
  intro s st i c ts hn hidx hi
  obtain ⟨hi', hf⟩ := find_member_eq_get st s i hidx
  have hpi : st[i].port = s.2 := find_index_port st s i hidx hi
  constructor
  · obtain ⟨st2, resp, href, hp0, hn0, hother⟩ := refresh_after_map
      (fun m => if m.name ≠ st[i].name
        then m.add_message (st[i].name ++ ": " ++ mergeRest ts) else m)
      (fun m => by dsimp only; split <;> rfl) s st i hidx hi (by simp)
    refine ⟨st2, resp, ?_, hp0, ?_⟩
    · rw [send_message_eq hf c ts]
      exact href
    · intro j hj hji
      have hj' := hother j hji
      rw [List.getElem?_eq_getElem hj] at hj'
      constructor
      · intro hne
        rw [hj']
        simp [Member.add_message, hne]
      · intro heq
        rw [hj']
        simp [heq]
  · obtain ⟨st3, resp2, href, hp0, hn0, hother⟩ := refresh_after_map
      (fun m => if s.2 ≠ m.port
        then m.add_message (st[i].name ++ " changed his name to " ++ mergeRest ts)
        else { m with name := mergeRest ts })
      (fun m => by dsimp only; split <;> rfl) s st i hidx hi (by simp [hpi])
    refine ⟨st3, resp2, ?_, hp0, ?_, ?_⟩
    · rw [change_name_eq hf c ts]
      exact href
    · rw [hn0]
      simp [hpi]
    · intro j hj hji
      have hjp : j < (ports st).length := by simpa [ports] using hj
      have hip : i < (ports st).length := by simpa [ports] using hi
      have hpj : st[j].port ≠ s.2 := by
        intro hq
        apply hji
        have hpp : (ports st)[j] = (ports st)[i] := by
          show (st.map Member.port)[j] = (st.map Member.port)[i]
          rw [List.getElem_map, List.getElem_map, hq, hpi]
        exact hn.getElem_inj_iff.mp hpp
      have hps : s.2 ≠ st[j].port := fun h => hpj h.symm
      have hj' := hother j hji
      rw [List.getElem?_eq_getElem hj] at hj'
      rw [hj']
      constructor
      · simp [Member.add_message, hps]
      · simp [Member.add_message, hps]

/-- C2 witness: with members "A"@1 and "B"@2, a Send from port 1 queues
`"A: hi"` for B only and drains the sender; a Rename from port 1 notifies B
and renames the sender. -/
theorem notification_targeting_witness :
    (∃ st2 resp, send_message ["2", "hi"] ("h", 1) [⟨"A", 1, []⟩, ⟨"B", 2, ["z"]⟩] =
        some (st2, resp) ∧
      st2[0]?.map Member.pending_messages = some [] ∧
      st2[1]?.map Member.pending_messages = some ["z", "A: hi"]) ∧
    (∃ st3 resp2, change_name ["3", "X"] ("h", 1) [⟨"A", 1, []⟩, ⟨"B", 2, ["z"]⟩] =
        some (st3, resp2) ∧
      st3[0]?.map Member.name = some "X" ∧
      st3[1]?.map Member.pending_messages = some ["z", "A changed his name to X"]) := by
  have h := notification_targeting ("h", 1) [⟨"A", 1, []⟩, ⟨"B", 2, ["z"]⟩] 0 "2" ["hi"]
    (by decide) rfl (by decide)
  have h3 := notification_targeting ("h", 1) [⟨"A", 1, []⟩, ⟨"B", 2, ["z"]⟩] 0 "3" ["X"]
    (by decide) rfl (by decide)
  constructor
  · obtain ⟨⟨st2, resp, heq, hp0, hother⟩, _⟩ := h
    refine ⟨st2, resp, heq, hp0, ?_⟩
    exact (hother 1 (by decide) (by decide)).1 (by decide)
  · obtain ⟨_, ⟨st3, resp2, heq, hp0, hname, hother⟩⟩ := h3
    refine ⟨st3, resp2, heq, hname, ?_⟩
    exact (hother 1 (by decide) (by decide)).1
